import Mathlib

/-!
Verification development for the riverboat Texas Hold'em engine
(src/game.go and src/views.go).

The Go source is embedded shallowly:
* machine integers (`uint`) become `Nat`; the packed `GameFlags` byte keeps
  its bitwise operations (`&&&`, `|||`) on `Nat`;
* slices become `List`s; in-place slice mutation becomes explicit list
  rebuilding (`listModify`, `List.map`);
* Go loops that could read out of range (and hence panic) become
  `Option`-valued, fuel-bounded functions, `none` marking the panic;
* the hand-ranking capability (`eval.BestFiveOfSeven`) is an external
  collaborator of this package, so every function that consults it takes
  the ranking function as a parameter.
-/

set_option maxRecDepth 4000

namespace Riverboat

/-- Card value from the external eval package, modelled as an opaque numeric
code; `0` is the empty card (views.go hides cards by writing `{0, 0}`). -/
abbrev Card := Nat

/-- Modelled from the spec: the player record lives in a source file that is
not part of src/ (only game.go/views.go use it).  Fields follow §3 of the
spec and every use site in src/: `Ready` (seated and funded), `In` (active
in the current hand), `Bet` (wagered this betting round), `TotalBet`
(wagered this hand), `Stack` (chips not wagered), two hole cards. -/
structure Player where
  Ready : Bool := false
  In : Bool := false
  Bet : Nat := 0
  TotalBet : Nat := 0
  Stack : Nat := 0
  Cards : Card × Card := (0, 0)
deriving Repr, DecidableEq

/-- Modelled from the spec: §3 "`AllIn` derivable from stack" and glossary
"a player has wagered their entire stack and cannot act further this hand" —
an active player whose stack is empty. -/
def Player.allIn (p : Player) : Bool := p.In && p.Stack == 0

/-- Modelled from the spec: §4.3 step 3 — returning excess chips to a player
reduces its `TotalBet` and credits its `Stack` by that amount. -/
def Player.returnChips (p : Player) (amt : Nat) : Player :=
  { p with Stack := p.Stack + amt, TotalBet := p.TotalBet - amt }

/-- Modelled from the spec: views.go calls `p.in(stage)`; §4.5 phrases the
reveal policy purely in terms of the seat being active, so the stage
argument does not alter the answer. -/
def Player.inStage (p : Player) (_s : Nat) : Bool := p.In

/-- Modelled from the spec: views.go calls `p.allIn(stage)`; all-in status
is derived from the stack as in `Player.allIn`. -/
def Player.allInStage (p : Player) (_s : Nat) : Bool := p.allIn

/-- Modelled from the spec: views.go calls `p.bet(stage)`, the seat's
current-round bet. -/
def Player.betStage (p : Player) (_s : Nat) : Nat := p.Bet

/-- Pot record (game.go).  game.go spells the eligible-seat field
`EligblePlayerNums`; views.go's `copyPots` spells it `EligiblePlayerNums`;
one field stands for both spellings here. -/
structure Pot where
  TopShare : Nat := 0
  Amt : Nat := 0
  EligblePlayerNums : List Nat := []
  WinningPlayerNums : List Nat := []
  WinningHand : List Card := []
  WinningScore : Int := 0
deriving Repr, DecidableEq

/-- Game configuration (game.go); the `Seed` field is used by views.go
(`gv.Config.Seed`) to reseed the table's random source. -/
structure GameConfig where
  MaxBuy : Nat := 0
  BigBlind : Nat := 0
  SmallBlind : Nat := 0
  Seed : Int := 0
deriving Repr, DecidableEq

/-- Stage constants (game.go `GameStage`). -/
def PreDeal : Nat := 1

/-- Stage constant PreFlop. -/
def PreFlop : Nat := 2

/-- Stage constant Flop. -/
def Flop : Nat := 3

/-- Stage constant Turn. -/
def Turn : Nat := 4

/-- Stage constant River. -/
def River : Nat := 5

/-- Stage constant Over. -/
def Over : Nat := 6

/-- The two named failure conditions of the package (errors.go is not in
src/; both names appear in game.go). -/
inductive GameErr where
  | NotEnoughPlayers : GameErr
  | BadPlayerNum : GameErr
deriving Repr, DecidableEq

/-- Table state (game.go `Game`).  The mutex and the `rand` source carry no
game-visible data and are omitted; `flags` is the packed status byte;
`calledNum` is used by views.go. -/
structure Game where
  dealerNum : Nat := 0
  actionNum : Nat := 0
  utgNum : Nat := 0
  sbNum : Nat := 0
  bbNum : Nat := 0
  calledNum : Nat := 0
  communityCards : List Card := []
  flags : Nat := 0
  config : GameConfig := {}
  players : List Player := []
  deck : List Card := []
  pots : List Pot := []
  minRaise : Nat := 0
deriving Repr, DecidableEq

/-- In-place update of one list element (Go `g.players[i] = ...`);
out-of-range indices leave the list unchanged. -/
def listModify (f : α → α) : Nat → List α → List α
  | _, [] => []
  | 0, a :: as => f a :: as
  | n + 1, a :: as => a :: listModify f n as

/-- game.go `getStage`: low three bits of the flags byte. -/
def Game.getStage (g : Game) : Nat := g.flags &&& 0x07

/-- game.go `getBetting`: bit 3 of the flags byte. -/
def Game.getBetting (g : Game) : Bool := g.flags &&& 0x08 == 0x08

/-- game.go `setStage`. -/
def Game.setStage (g : Game) (s : Nat) : Game :=
  { g with flags := (g.flags &&& 0xF8) ||| s }

/-- game.go `setBetting`. -/
def Game.setBetting (g : Game) (b : Bool) : Game :=
  { g with flags := if b then g.flags ||| 0x08 else g.flags &&& 0xF7 }

/-- game.go `setStageAndBetting`. -/
def Game.setStageAndBetting (g : Game) (s : Nat) (b : Bool) : Game :=
  (g.setStage s).setBetting b

/-- game.go `readyCount`. -/
def Game.readyCount (g : Game) : Nat := g.players.countP (·.Ready)

/-- game.go `toCall`: the maximum current-round `Bet` over all players. -/
def Game.toCall (g : Game) : Nat :=
  g.players.foldl (fun val q => if q.Bet > val then q.Bet else val) 0

/-- game.go `isCalled`.  Go indexes `g.players[pn]` directly; on the paths
verified below `pn` is always in range, so the default element is never
consulted. -/
def Game.isCalled (g : Game) (pn : Nat) : Bool :=
  (g.players.getD pn {}).allIn || ((g.players.getD pn {}).Bet == g.toCall)

/-- The blind-search loop of game.go `updateBlindNums`
(`for !g.players[x].Ready { x = (x+1) % len }`), with explicit fuel; every
call below passes fuel `len` which suffices whenever any seat is ready. -/
def findReadyFrom (ps : List Player) : Nat → Nat → Nat
  | 0, i => i
  | fuel + 1, i =>
    if (ps.getD i {}).Ready then i else findReadyFrom ps fuel ((i + 1) % ps.length)

/-- game.go `updateBlindNums`: assigns small blind, big blind and UTG by
ready-seat count, returning `GameErr.NotEnoughPlayers` when fewer than two
seats are ready. -/
def Game.updateBlindNums (g : Game) : Game × Option GameErr :=
  let n := g.players.length
  if g.readyCount < 2 then
    ({ g with bbNum := g.dealerNum, sbNum := g.dealerNum, utgNum := g.dealerNum },
      some GameErr.NotEnoughPlayers)
  else if g.readyCount == 2 then
    let bb := findReadyFrom g.players n ((g.dealerNum + 1) % n)
    ({ g with sbNum := g.dealerNum, utgNum := g.dealerNum, bbNum := bb }, none)
  else
    let sb := findReadyFrom g.players n ((g.dealerNum + 1) % n)
    let bb := findReadyFrom g.players n ((sb + 1) % n)
    let utg := findReadyFrom g.players n ((bb + 1) % n)
    ({ g with sbNum := sb, bbNum := bb, utgNum := utg }, none)

/-- The dealer-advance loop of game.go `resetForNextHand`.  Go evaluates
`g.players[i].Ready` before any wrap, so an index at or past the seat count
is an out-of-range slice read (a panic), modelled as `none`.  Fuel bounds
the otherwise unbounded loop; `len + 1` suffices whenever a ready seat
exists. -/
def dealerSearch (ps : List Player) : Nat → Nat → Option Nat
  | 0, _ => none
  | fuel + 1, i =>
    if ps.length ≤ i then none
    else if (ps.getD i {}).Ready then some i
    else dealerSearch ps fuel ((i + 1) % ps.length)

/-- game.go `resetForNextHand`: clears every player's `In`/`Bet`/`TotalBet`,
marks zero-stack players not ready, advances the dealer (note the first
increment `g.dealerNum + 1` has no modulo, exactly as in the source), and
sets status to (PreDeal, not betting). -/
def Game.resetForNextHand (g : Game) : Option Game :=
  let ps := g.players.map (fun p =>
    let p := { p with In := false, Bet := 0, TotalBet := 0 }
    if p.Stack == 0 then { p with Ready := false } else p)
  match dealerSearch ps (ps.length + 1) (g.dealerNum + 1) with
  | none => none
  | some d => some (({ g with players := ps, dealerNum := d }).setStageAndBetting PreDeal false)

/-- External hand-ranking capability (spec §6): given two hole cards and the
five community cards, the best five-card hand and its score, lower being
strictly better. -/
abbrev Ranker := Card → Card → Card → Card → Card → Card → Card → List Card × Int

/-- The `BestFiveOfSeven` call pattern of game.go/views.go: a seat's hole
cards together with the first five community cards.  At the call sites the
board always holds five cards; `getD` supplies a default merely to keep the
function total. -/
def Game.handScore (g : Game) (rank : Ranker) (num : Nat) : List Card × Int :=
  let p := g.players.getD num {}
  rank p.Cards.1 p.Cards.2 (g.communityCards.getD 0 0) (g.communityCards.getD 1 0)
    (g.communityCards.getD 2 0) (g.communityCards.getD 3 0) (g.communityCards.getD 4 0)

/-- The `inPlayerNums` list built at the top of game.go `updateRoundInfo`:
indices of the seats currently `In`, in seat order. -/
def Game.inPlayerNums (g : Game) : List Nat :=
  (List.range g.players.length).filter (fun i => (g.players.getD i {}).In)

/-- The `allInPlayerNums` list built at the top of game.go
`updateRoundInfo`: indices of the `In` seats that are all-in, in seat
order. -/
def Game.allInPlayerNums (g : Game) : List Nat :=
  (List.range g.players.length).filter
    (fun i => (g.players.getD i {}).In && (g.players.getD i {}).allIn)

/-- The `allCalled` flag of game.go `updateRoundInfo`: false exactly when
some seat is `In`, not all-in, and has not matched `toCall`. -/
def Game.allCalled (g : Game) : Bool :=
  (List.range g.players.length).all (fun i =>
    !(g.players.getD i {}).In || (g.players.getD i {}).allIn || g.isCalled i)

/-- The action-advance loop of game.go `updateRoundInfo`
(`for g.isCalled(a) || allIn || !In { a = (a+1) % len }`); Go reads
`g.players[a]` each test, so an out-of-range index is a panic (`none`). -/
def advanceAction (g : Game) : Nat → Nat → Option Nat
  | 0, _ => none
  | fuel + 1, a =>
    if g.players.length ≤ a then none
    else if g.isCalled a || (g.players.getD a {}).allIn || !(g.players.getD a {}).In then
      advanceAction g fuel ((a + 1) % g.players.length)
    else some a

/-- Ascending insertion by the players' `TotalBet` for the all-in sort in
game.go `updateRoundInfo`.  Go uses `sort.Slice` with
`TotalBet[i] < TotalBet[j]`; the relative order of equal keys is
unspecified there and unobservable in the carving (equal keys produce
identical pots), so a deterministic insertion sort stands in. -/
def insertByTotalBet (g : Game) (n : Nat) : List Nat → List Nat
  | [] => [n]
  | m :: ms =>
    if (g.players.getD n {}).TotalBet < (g.players.getD m {}).TotalBet then n :: m :: ms
    else m :: insertByTotalBet g n ms

/-- The sorted all-in seat list of game.go `updateRoundInfo`. -/
def sortByTotalBet (g : Game) (l : List Nat) : List Nat :=
  l.foldr (insertByTotalBet g) []

/-- One iteration of the side-pot carving loop (game.go lines 296-316): the
ceiling is the all-in seat's remaining `TotalBet`; every seat contributes
`min(ceiling, remaining TotalBet)` and has it deducted; seats at or above
the ceiling that are `In` become eligible.  A fresh Go `Pot{}` has zero
`WinningScore`; the showdown loop later overwrites it. -/
def carveOnePot (ps : List Player) (top : Nat) : Pot × List Player :=
  let elig := (List.range ps.length).filter
    (fun i => decide (top ≤ (ps.getD i {}).TotalBet) && (ps.getD i {}).In)
  let amt := (ps.map (fun p => if top ≤ p.TotalBet then top else p.TotalBet)).sum
  let ps' := ps.map (fun p =>
    if top ≤ p.TotalBet then { p with TotalBet := p.TotalBet - top }
    else { p with TotalBet := 0 })
  ({ TopShare := top, Amt := amt, EligblePlayerNums := elig }, ps')

/-- The full side-pot carving loop over the sorted all-in seats. -/
def carveSidePots (ps : List Player) : List Nat → List Player × List Pot
  | [] => (ps, [])
  | ndx :: rest =>
    let top := (ps.getD ndx {}).TotalBet
    let (pot, ps') := carveOnePot ps top
    let (ps'', pots) := carveSidePots ps' rest
    (ps'', pot :: pots)

/-- The winner-selection loop run for each pot (game.go lines 318-340 and
again for the final pot): the running state is (best score so far, joint
winners, winning hand), started at the sentinel score 8000 with no
winners. -/
def potWinnersFold (score : Nat → List Card × Int) :
    List Nat → Int × List Nat × List Card → Int × List Nat × List Card
  | [], acc => acc
  | num :: rest, (ws, wns, wh) =>
    let s := (score num).2
    if s < ws then potWinnersFold score rest ((score num).2, [num], (score num).1)
    else if s = ws then potWinnersFold score rest (ws, wns ++ [num], wh)
    else potWinnersFold score rest (ws, wns, wh)

/-- Winner selection from the sentinel start state. -/
def potShowdown (score : Nat → List Card × Int) (elig : List Nat) :
    Int × List Nat × List Card :=
  potWinnersFold score elig (8000, [], [])

/-- Crediting a fixed amount to each listed seat's stack. -/
def creditFold (c : Nat) (wns : List Nat) (ps : List Player) : List Player :=
  wns.foldl (fun ps num => listModify (fun p => { p with Stack := p.Stack + c }) num ps) ps

/-- The payout loop of game.go (lines 342-345 and 379-381): every joint
winner's stack grows by `Amt / (number of winners)`; the divisor is
loop-invariant in the source, so it is computed once here. -/
def payWinners (ps : List Player) (wns : List Nat) (amt : Nat) : List Player :=
  creditFold (amt / wns.length) wns ps

/-- The per-pot showdown-and-payout loop over the carved side pots
(game.go lines 318-346).  Winner evaluation reads only hole cards and the
board, which the payouts never touch, so the score function stays fixed. -/
def settlePots (score : Nat → List Card × Int) (ps : List Player) :
    List Pot → List Player × List Pot
  | [] => (ps, [])
  | pot :: rest =>
    let r := potShowdown score pot.EligblePlayerNums
    let pot' := { pot with WinningScore := r.1, WinningPlayerNums := r.2.1, WinningHand := r.2.2 }
    let ps' := payWinners ps r.2.1 pot'.Amt
    let (ps'', pots') := settlePots score ps' rest
    (ps'', pot' :: pots')

/-- The final pot for the seats still in and not all-in (game.go lines
350-377), judged against the stacks as they stand after the side-pot
payouts.  Note two faithful quirks of the source: the eligible-seat field
is never filled in for the final pot, and the `p.TotalBet = 0` write inside
the loop hits Go's per-iteration range copy, so the table's `TotalBet`
fields are not actually cleared here. -/
def finalPotOf (score : Nat → List Card × Int) (ps : List Player) : Pot :=
  let seats := (List.range ps.length).filter
    (fun i => (ps.getD i {}).In && !(ps.getD i {}).allIn)
  let amt := (seats.map (fun i => (ps.getD i {}).TotalBet)).sum
  let r := potShowdown score seats
  { TopShare := 0, Amt := amt, EligblePlayerNums := [],
    WinningPlayerNums := r.2.1, WinningHand := r.2.2, WinningScore := r.1 }

/-- game.go `updateRoundInfo`, the round-completion check and river
settlement; `none` marks a Go panic (out-of-range slice read).  Branches in
source order: concession when fewer than two seats are `In` (the read of
`inPlayerNums[0]` panics when none are), action advance when somebody still
has to call, the one-overbettor refund, then either river settlement or
clearing the betting flag. -/
def Game.updateRoundInfo (g : Game) (rank : Ranker) : Option Game :=
  let inNums := g.inPlayerNums
  let allInNums := g.allInPlayerNums
  if inNums.length < 2 then
    let g := g.setStageAndBetting PreDeal false
    match inNums with
    | [] => none
    | w :: _ =>
      let ps := (g.players.map (·.TotalBet)).foldl
        (fun ps tb => listModify (fun p => { p with Stack := p.Stack + tb }) w ps) g.players
      some { g with players := ps }
  else if !g.allCalled then
    match advanceAction g (g.players.length + 1) g.actionNum with
    | none => none
    | some a => some { g with actionNum := a }
  else
    let g :=
      if inNums.length - allInNums.length < 2 then
        let tb := fun i => (g.players.getD i {}).TotalBet
        let t := inNums.foldl (fun (t : Nat × Nat) ndx =>
          if tb t.1 < tb ndx then (ndx, t.1)
          else if tb t.2 < tb ndx then (t.1, ndx) else t) (0, 0)
        { g with players :=
            listModify (fun p => p.returnChips (tb t.1 - tb t.2)) t.1 g.players }
      else g
    if g.getStage == River then
      let score := g.handScore rank
      let sorted := sortByTotalBet g allInNums
      let (ps1, sidePots) := carveSidePots g.players sorted
      let (ps2, sidePots') := settlePots score ps1 sidePots
      let fp := finalPotOf score ps2
      let ps3 := payWinners ps2 fp.WinningPlayerNums fp.Amt
      let newPots := if fp.Amt != 0 then sidePots' ++ [fp] else g.pots
      ({ g with players := ps3, pots := newPots }).resetForNextHand
    else
      some (g.setBetting false)

/-- views.go `GameView`: the snapshot of a game's state. -/
structure GameView where
  DealerNum : Nat := 0
  ActionNum : Nat := 0
  UTGNum : Nat := 0
  SBNum : Nat := 0
  BBNum : Nat := 0
  CalledNum : Nat := 0
  CommunityCards : List Card := []
  Stage : Nat := 0
  Betting : Bool := false
  Config : GameConfig := {}
  Players : List Player := []
  Deck : List Card := []
  Pots : List Pot := []
  MinRaise : Nat := 0
  ReadyCount : Nat := 0
deriving Repr, DecidableEq

/-- views.go `copyPots`: a field-by-field copy of every pot.  Lean lists are
immutable values, so the Go deep-copy discipline (fresh backing arrays for
every nested slice) has no observable counterpart here. -/
def copyPots (src : List Pot) : List Pot :=
  src.map (fun p =>
    { Amt := p.Amt, TopShare := p.TopShare, WinningScore := p.WinningScore,
      EligblePlayerNums := p.EligblePlayerNums, WinningPlayerNums := p.WinningPlayerNums,
      WinningHand := p.WinningHand })

/-- views.go `copyToView`: the omniscient snapshot; `ReadyCount` is derived
from the players rather than stored on the game. -/
def Game.copyToView (g : Game) : GameView :=
  { DealerNum := g.dealerNum, ActionNum := g.actionNum, UTGNum := g.utgNum,
    SBNum := g.sbNum, BBNum := g.bbNum,
    CommunityCards := g.communityCards, Stage := g.getStage, Betting := g.getBetting,
    Config := g.config, Players := g.players, Deck := g.deck,
    Pots := copyPots g.pots, MinRaise := g.minRaise, ReadyCount := g.readyCount,
    CalledNum := g.calledNum }

/-- views.go `FillFromView`: rebuilds a game from a stored view; the
pseudo-random source is reconstructed from `Config.Seed` in the source and
carries no further game-visible state, so it does not appear here. -/
def Game.FillFromView (g : Game) (gv : GameView) : Game :=
  ({ g with
      dealerNum := gv.DealerNum, actionNum := gv.ActionNum, utgNum := gv.UTGNum,
      bbNum := gv.BBNum, sbNum := gv.SBNum, communityCards := gv.CommunityCards,
      config := gv.Config, players := gv.Players, deck := gv.Deck,
      pots := copyPots gv.Pots, minRaise := gv.MinRaise,
      calledNum := gv.CalledNum }).setStageAndBetting gv.Stage gv.Betting

/-- views.go `GenerateOmniView`. -/
def Game.GenerateOmniView (g : Game) : GameView := g.copyToView

/-- The showdown-order walk of views.go `GeneratePlayerView` (lines
173-189): starting at `calledNum`, each seat whose score is at or below the
running best and which is still `In` is revealed, and the running best is
lowered to its score. -/
def walkRevealAux (g : Game) (score : Nat → Int) : List Nat → Int → List Nat
  | [], _ => []
  | i :: rest, stb =>
    let pni := (g.calledNum + i) % g.players.length
    let s := score pni
    if s ≤ stb && (g.players.getD pni {}).In then pni :: walkRevealAux g score rest s
    else walkRevealAux g score rest stb

/-- The set of seats views.go `GeneratePlayerView` reveals, as a list:
every `In` seat under the all-in showdown-transparency rule, and, at
PreDeal with more than one seat in, `calledNum`, the showdown-order walk,
and every recorded pot winner.  The counts are Go `int`s, hence `Int` here
(`inCount - 1` may be `-1`). -/
def Game.revealList (g : Game) (rank : Ranker) : List Nat :=
  let stage := g.getStage
  let inCount : Int := g.players.countP (fun p => p.inStage stage)
  let allInCount : Int := g.players.countP (fun p => p.allInStage stage)
  let betCount : Int := g.players.countP (fun p => p.inStage stage && 0 < p.betStage stage)
  let showAll := allInCount = inCount || (betCount = 0 && allInCount = inCount - 1)
  let showAllList :=
    if showAll then
      (List.range g.players.length).filter (fun i => (g.players.getD i {}).inStage stage)
    else []
  let score := fun num => (g.handScore rank num).2
  let preDealList :=
    if stage == PreDeal && 1 < inCount then
      g.calledNum ::
        (walkRevealAux g score (List.range g.players.length) (score g.calledNum) ++
          (g.pots.map Pot.WinningPlayerNums).flatten)
    else []
  showAllList ++ preDealList

/-- The hide-by-default pass of views.go `GeneratePlayerView`: every seat
other than `pn` gets empty cards; the counter tracks the seat index. -/
def hideExcept (pn : Nat) : Nat → List Player → List Player
  | _, [] => []
  | i, p :: ps =>
    (if i = pn then p else { p with Cards := (0, 0) }) :: hideExcept pn (i + 1) ps

/-- The `showCards` calls of views.go applied for a list of seats in order:
each writes the seat's live hole cards (read from the untouched game) into
the view's player list. -/
def showSeats (g : Game) : List Nat → List Player → List Player
  | [], ps => ps
  | q :: rest, ps =>
    showSeats g rest (listModify (fun p => { p with Cards := (g.players.getD q {}).Cards }) q ps)

/-- views.go `GeneratePlayerView`: the omniscient copy with the deck and the
configuration seed zeroed, every other seat's cards hidden, and the seats of
`revealList` shown again.  In the source, hiding/counting and the several
`showCards` passes interleave in one pass over the seats, but every
`showCards(q)` writes the same value (seat `q`'s live cards) and all reads
go to the untouched game, so hiding first and then showing the reveal list
is the same function. -/
def Game.GeneratePlayerView (g : Game) (rank : Ranker) (pn : Nat) : GameView :=
  let gv := g.copyToView
  let shown := showSeats g (g.revealList rank) (hideExcept pn 0 gv.Players)
  { gv with Deck := [], Config := { gv.Config with Seed := 0 }, Players := shown }

/-- A ranking function that scores every hand 1 (a full n-way tie); the
engine treats the ranking as an external capability, so any such function
instantiates it. -/
def rankConstOne : Ranker := fun _ _ _ _ _ _ _ => ([], 1)

/-- A ranking function that scores every hand 9000, above the 8000 sentinel
the winner-selection loop starts from. -/
def rankConstBig : Ranker := fun _ _ _ _ _ _ _ => ([], 9000)

/-- The claim phrase "the next ready seat after `x`, wrapping modulo the
seat count and skipping non-ready seats": seat `r` lies `k` steps past `x`
for some `k` between 1 and the seat count, is ready, and every strictly
earlier step lands on a non-ready seat. -/
def NextReady (ps : List Player) (x r : Nat) : Prop :=
  ∃ k, 1 ≤ k ∧ k ≤ ps.length ∧ r = (x + k) % ps.length ∧
    (ps.getD r {}).Ready = true ∧
    ∀ j, 1 ≤ j → j < k → (ps.getD ((x + j) % ps.length) {}).Ready = false

/-- River-stage game for C1: seat 0 folded after wagering 10, seats 1 and 2
still in for 50 each with chips behind (nobody all-in), bets matched. -/
def gameC1 : Game :=
  { flags := 13, dealerNum := 0, communityCards := [7, 8, 9, 10, 11],
    players := [
      { Ready := true, In := false, Bet := 0, TotalBet := 10, Stack := 90, Cards := (1, 2) },
      { Ready := true, In := true, Bet := 0, TotalBet := 50, Stack := 40, Cards := (3, 4) },
      { Ready := true, In := true, Bet := 0, TotalBet := 50, Stack := 40, Cards := (5, 6) }] }

/-- Flop-stage game for C2: two seats in, seat 0 has a live bet, so no
reveal rule applies and seat 1 must stay hidden from seat 0. -/
def gameC2 : Game :=
  { flags := 11,
    players := [
      { Ready := true, In := true, Bet := 5, TotalBet := 5, Stack := 50, Cards := (1, 2) },
      { Ready := true, In := true, Bet := 0, TotalBet := 0, Stack := 50, Cards := (3, 4) }] }

/-- River-stage game for C3: seats 0 and 1 all-in for the same 10, seats 2
and 3 in for 20 each with chips behind. -/
def gameC3 : Game :=
  { flags := 13, dealerNum := 0, communityCards := [7, 8, 9, 10, 11],
    players := [
      { Ready := true, In := true, Bet := 0, TotalBet := 10, Stack := 0, Cards := (1, 2) },
      { Ready := true, In := true, Bet := 0, TotalBet := 10, Stack := 0, Cards := (3, 4) },
      { Ready := true, In := true, Bet := 0, TotalBet := 20, Stack := 30, Cards := (5, 6) },
      { Ready := true, In := true, Bet := 0, TotalBet := 20, Stack := 30, Cards := (5, 9) }] }

/-- River-stage game for C4: seat 0 all-in for 10, seats 1 and 2 in for 20
each with chips behind. -/
def gameC4 : Game :=
  { flags := 13, dealerNum := 0, communityCards := [7, 8, 9, 10, 11],
    players := [
      { Ready := true, In := true, Bet := 0, TotalBet := 10, Stack := 0, Cards := (1, 2) },
      { Ready := true, In := true, Bet := 0, TotalBet := 20, Stack := 30, Cards := (3, 4) },
      { Ready := true, In := true, Bet := 0, TotalBet := 20, Stack := 30, Cards := (5, 6) }] }

/-- Sample score function for the C4 witness: every seat scores 5. -/
def scoreFive : Nat → List Card × Int := fun _ => ([], 5)

/-- Sample seat list for the C4 witness payout. -/
def playersC4w : List Player := [{ Stack := 3 }, { Stack := 4 }]

/-- Flop-stage heads-up game for C5: seat 0 is the one in-and-not-all-in
seat with 50 wagered, seat 1 is all-in for 30; bets are matched, so the
refund branch runs. -/
def gameC5 : Game :=
  { flags := 11, dealerNum := 0,
    players := [
      { Ready := true, In := true, Bet := 0, TotalBet := 50, Stack := 50, Cards := (1, 2) },
      { Ready := true, In := true, Bet := 0, TotalBet := 30, Stack := 0, Cards := (3, 4) }] }

/-- Flop-stage game for the C6 witness: only seat 1 is in; total wagers sum
to 28 and there is a stale pot record and a nonzero action seat. -/
def gameC6 : Game :=
  { flags := 11, actionNum := 2, pots := [{ Amt := 7 }],
    players := [
      { Ready := true, In := false, TotalBet := 5, Stack := 1 },
      { Ready := true, In := true, TotalBet := 20, Stack := 2 },
      { Ready := true, In := false, TotalBet := 3, Stack := 4 }] }

/-- Game for C7: two ready seats and the dealer on the last seat, so the
unwrapped first increment of `resetForNextHand` reads past the end. -/
def gameC7 : Game :=
  { flags := 13, dealerNum := 1,
    players := [{ Ready := true, Stack := 10 }, { Ready := true, Stack := 10 }] }

/-- Game for the C8 witness: three ready seats, dealer on seat 0. -/
def gameC8 : Game :=
  { dealerNum := 0,
    players := [
      { Ready := true, Stack := 10 }, { Ready := true, Stack := 10 },
      { Ready := true, Stack := 10 }] }

/-- View for the C9 counterexample: `Stage` is 9, which does not fit the
3-bit stage field of the packed flags byte; every other field is default
and mutually consistent. -/
def viewC9bad : GameView := { Stage := 9 }

/-- View for the C9 witness: stage and betting in range, one player, and
`ReadyCount` consistent with the player list. -/
def viewC9ok : GameView :=
  { DealerNum := 4, ActionNum := 2, UTGNum := 3, SBNum := 1, BBNum := 2, CalledNum := 1,
    CommunityCards := [7, 8], Stage := 3, Betting := true,
    Config := { MaxBuy := 500, BigBlind := 2, SmallBlind := 1, Seed := 77 },
    Players := [{ Ready := true, In := true, Bet := 2, TotalBet := 6, Stack := 44, Cards := (9, 8) }],
    Deck := [5, 6],
    Pots := [{ TopShare := 1, Amt := 3, EligblePlayerNums := [0], WinningPlayerNums := [0], WinningHand := [1, 2, 3, 4, 5], WinningScore := 42 }],
    MinRaise := 2, ReadyCount := 1 }

/-- A nontrivial starting game for the C9 witness, to show the round trip
ignores the prior state of the table being filled. -/
def gameC9 : Game :=
  { flags := 14, dealerNum := 9, players := [{ Ready := true }, {}], deck := [1, 2, 3] }

/-- Game for the C10 witness: three seats wagered but none is `In`. -/
def gameC10 : Game :=
  { flags := 11,
    players := [
      { Ready := true, In := false, TotalBet := 5, Stack := 1 },
      { Ready := true, In := false, TotalBet := 20, Stack := 2 },
      { Ready := true, In := false, TotalBet := 3, Stack := 4 }] }

/-! Helper lemmas about the list and bit primitives of the embedding. -/

theorem listModify_length (f : α → α) (w : Nat) (ps : List α) :
    (listModify f w ps).length = ps.length := by
  induction ps generalizing w with
  | nil => cases w <;> rfl
  | cons a as ih =>
    cases w with
    | zero => rfl
    | succ n => simp [listModify, ih]

theorem getD_listModify_self (f : α → α) (w : Nat) (ps : List α) (d : α)
    (h : w < ps.length) : (listModify f w ps).getD w d = f (ps.getD w d) := by
  induction ps generalizing w with
  | nil => simp at h
  | cons a as ih =>
    cases w with
    | zero => rfl
    | succ n =>
      simp only [listModify, List.getD_cons_succ]
      exact ih n (by simpa using h)

theorem getD_listModify_ne (f : α → α) (w i : Nat) (ps : List α) (d : α)
    (h : i ≠ w) : (listModify f w ps).getD i d = ps.getD i d := by
  induction ps generalizing w i with
  | nil => cases w <;> rfl
  | cons a as ih =>
    cases w with
    | zero =>
      cases i with
      | zero => exact absurd rfl h
      | succ m => rfl
    | succ n =>
      cases i with
      | zero => rfl
      | succ m =>
        simp only [listModify, List.getD_cons_succ]
        exact ih n m (fun e => h (by omega))

theorem listModify_listModify (f g' : α → α) (w : Nat) (ps : List α) :
    listModify f w (listModify g' w ps) = listModify (fun a => f (g' a)) w ps := by
  induction ps generalizing w with
  | nil => cases w <;> rfl
  | cons a as ih =>
    cases w with
    | zero => rfl
    | succ n => simp [listModify, ih]

theorem testBit_high_of_lt (c i k : Nat) (hc : c < 2 ^ k) : c.testBit (i + k) = false := by
  apply Nat.testBit_lt_two_pow
  have h2 : (2 : Nat) ^ k ≤ 2 ^ (i + k) := Nat.pow_le_pow_right (by norm_num) (by omega)
  omega

theorem stage_bits_or (x s : Nat) (hs : s < 8) : (((x &&& 248) ||| s) ||| 8) &&& 7 = s := by
  apply Nat.eq_of_testBit_eq
  intro i
  simp only [Nat.testBit_and, Nat.testBit_or]
  match i with
  | 0 => simp [show Nat.testBit 248 0 = false from rfl, show Nat.testBit 8 0 = false from rfl, show Nat.testBit 7 0 = true from rfl]
  | 1 => simp [show Nat.testBit 248 1 = false from rfl, show Nat.testBit 8 1 = false from rfl, show Nat.testBit 7 1 = true from rfl]
  | 2 => simp [show Nat.testBit 248 2 = false from rfl, show Nat.testBit 8 2 = false from rfl, show Nat.testBit 7 2 = true from rfl]
  | i + 3 => simp [testBit_high_of_lt 7 i 3 (by norm_num), testBit_high_of_lt s i 3 hs]

theorem stage_bits_and (x s : Nat) (hs : s < 8) : (((x &&& 248) ||| s) &&& 247) &&& 7 = s := by
  apply Nat.eq_of_testBit_eq
  intro i
  simp only [Nat.testBit_and, Nat.testBit_or]
  match i with
  | 0 => simp [show Nat.testBit 248 0 = false from rfl, show Nat.testBit 247 0 = true from rfl, show Nat.testBit 7 0 = true from rfl]
  | 1 => simp [show Nat.testBit 248 1 = false from rfl, show Nat.testBit 247 1 = true from rfl, show Nat.testBit 7 1 = true from rfl]
  | 2 => simp [show Nat.testBit 248 2 = false from rfl, show Nat.testBit 247 2 = true from rfl, show Nat.testBit 7 2 = true from rfl]
  | i + 3 => simp [testBit_high_of_lt 7 i 3 (by norm_num), testBit_high_of_lt s i 3 hs]

theorem bet_bits_or (y : Nat) : (y ||| 8) &&& 8 = 8 := by
  apply Nat.eq_of_testBit_eq
  intro i
  simp only [Nat.testBit_and, Nat.testBit_or]
  match i with
  | 0 => simp [show Nat.testBit 8 0 = false from rfl]
  | 1 => simp [show Nat.testBit 8 1 = false from rfl]
  | 2 => simp [show Nat.testBit 8 2 = false from rfl]
  | 3 => simp [show Nat.testBit 8 3 = true from rfl]
  | i + 4 => simp [testBit_high_of_lt 8 i 4 (by norm_num)]

theorem bet_bits_and (y : Nat) : (y &&& 247) &&& 8 = 0 := by
  apply Nat.eq_of_testBit_eq
  intro i
  simp only [Nat.testBit_and, Nat.zero_testBit]
  match i with
  | 3 => simp [show Nat.testBit 247 3 = false from rfl]
  | 0 => simp [show Nat.testBit 8 0 = false from rfl]
  | 1 => simp [show Nat.testBit 8 1 = false from rfl]
  | 2 => simp [show Nat.testBit 8 2 = false from rfl]
  | i + 4 => simp [testBit_high_of_lt 8 i 4 (by norm_num)]

theorem getStage_setStageAndBetting (g : Game) (s : Nat) (b : Bool) (hs : s < 8) :
    (g.setStageAndBetting s b).getStage = s := by
  cases b <;>
    simp [Game.setStageAndBetting, Game.setStage, Game.setBetting, Game.getStage,
      stage_bits_or g.flags s hs, stage_bits_and g.flags s hs]

theorem getBetting_setStageAndBetting (g : Game) (s : Nat) (b : Bool) :
    (g.setStageAndBetting s b).getBetting = b := by
  cases b <;>
    simp [Game.setStageAndBetting, Game.setStage, Game.setBetting, Game.getBetting,
      bet_bits_or ((g.flags &&& 248) ||| s), bet_bits_and ((g.flags &&& 248) ||| s)]

/-! Length lemmas for the side-pot carving used by C3. -/

theorem insertByTotalBet_length (g : Game) (n : Nat) (l : List Nat) :
    (insertByTotalBet g n l).length = l.length + 1 := by
  induction l with
  | nil => rfl
  | cons m ms ih =>
    simp only [insertByTotalBet]
    split
    · simp
    · simp [ih]

theorem sortByTotalBet_length (g : Game) (l : List Nat) :
    (sortByTotalBet g l).length = l.length := by
  induction l with
  | nil => rfl
  | cons n ns ih =>
    rw [show sortByTotalBet g (n :: ns) = insertByTotalBet g n (sortByTotalBet g ns) from rfl,
      insertByTotalBet_length, ih]
    simp

theorem carveSidePots_length (ps : List Player) (l : List Nat) :
    ((carveSidePots ps l).2).length = l.length := by
  induction l generalizing ps with
  | nil => rfl
  | cons n ns ih => simp [carveSidePots, ih]

/-! The claims. -/

/-- C1: the claim says every river settlement conserves money — the `Amt`
fields of the pots it produces sum to the sum of all seats' `TotalBet` at
the start of settlement, folded seats included.  The code only sweeps a
folded seat's chips into pots carved around all-in seats; `gameC1` reaches
river settlement (River stage, two seats in, everyone called, nobody
all-in) with a folded seat holding `TotalBet = 10`, and the settlement
produces pots totalling 100 although the seats had wagered 110: the folded
chips are destroyed. -/
theorem updateRoundInfo_loses_folded_chips :
    gameC1.getStage = River ∧ gameC1.inPlayerNums.length = 2 ∧ gameC1.allCalled = true ∧
    gameC1.allInPlayerNums = [] ∧
    (gameC1.updateRoundInfo rankConstOne).map (fun g => (g.pots.map Pot.Amt).sum) = some 100 ∧
    (gameC1.players.map Player.TotalBet).sum = 110 := by
  decide

/-- C5: the claim (and the comment in the source) says that when exactly one
seat is in and not all-in, its wager above the second-highest total
contribution is returned to it before any pot is built.  `gameC5` is a
heads-up flop state where seat 0 is that seat with `TotalBet = 50` against
an all-in 30, so 20 should be refunded; because the two running maxima of
the refund loop are initialized to seat 0 itself, the comparison
`TotalBet[0] > TotalBet[0]` never fires and nothing is refunded: seat 0
keeps `TotalBet = 50` and `Stack = 50`. -/
theorem updateRoundInfo_refund_skipped_for_seat_zero :
    gameC5.inPlayerNums = [0, 1] ∧ gameC5.allInPlayerNums = [1] ∧ gameC5.allCalled = true ∧
    gameC5.inPlayerNums.length - gameC5.allInPlayerNums.length < 2 ∧
    (gameC5.updateRoundInfo rankConstOne).map
      (fun g => g.players.map (fun p => (p.TotalBet, p.Stack))) = some [(50, 50), (30, 0)] := by
  decide

/-- C7: the claim says the dealer advance wraps modulo the seat count with
no out-of-range access when the dealer sits on the last seat.  The code
increments `dealerNum` once without a modulo and then reads
`players[dealerNum]`; in `gameC7` both seats are ready with chips, the
dealer is the last seat (1 of 2), and `resetForNextHand` reads index 2 of a
2-seat table — the `none` below is that out-of-range read. -/
theorem resetForNextHand_out_of_range :
    gameC7.dealerNum = 1 ∧ gameC7.players.length = 2 ∧
    (∀ p ∈ gameC7.players, p.Ready = true ∧ p.Stack ≠ 0) ∧
    gameC7.resetForNextHand = none := by
  decide

/-- C3 counterexample: the claim says river settlement produces exactly one
side pot per distinct all-in `TotalBet` level plus at most one final pot —
at most two pots for `gameC3`, whose two all-in seats share one level (10).
The code produces one pot per all-in seat: three pots. -/
theorem sidePots_counted_per_seat :
    ((gameC3.allInPlayerNums.map (fun i => (gameC3.players.getD i {}).TotalBet)).dedup.length
        = 1) ∧
    (gameC3.updateRoundInfo rankConstOne).map (fun g => g.pots.length) = some 3 := by
  decide

/-- C3 as amended: river settlement produces exactly one side pot per all-in
`In` seat (not per distinct contribution level), in ascending order of
contribution; when two all-in seats share the same `TotalBet` (as in
`gameC3`), two side pots appear — the first carrying the common `TotalBet`
as `TopShare` with the full carve, the second with `TopShare` 0 and `Amt` 0
and every `In` seat eligible — followed by the final pot (whose
eligible-seat record stays empty). -/
theorem sidePots_shape :
    (∀ g : Game, (carveSidePots g.players (sortByTotalBet g g.allInPlayerNums)).2.length
        = g.allInPlayerNums.length) ∧
    (gameC3.updateRoundInfo rankConstOne).map
        (fun g => g.pots.map (fun p => (p.TopShare, p.Amt, p.EligblePlayerNums)))
      = some [(10, 40, [0, 1, 2, 3]), (0, 0, [0, 1, 2, 3]), (0, 20, [])] := by
  refine ⟨fun g => ?_, by decide⟩
  rw [carveSidePots_length, sortByTotalBet_length]

/-- C4 counterexample: the claim says a pot's winners are exactly the
eligible seats attaining the minimum score.  With a ranking that scores
every hand 9000 (the engine never constrains the external scores), the side
pot of `gameC4` has eligible seats 0, 1, 2 all at the minimum score 9000,
yet the recorded winner set is empty, because the selection loop starts
from the sentinel score 8000 and only scores at or below it can win. -/
theorem potWinners_sentinel_blocks_argmin :
    ((gameC4.updateRoundInfo rankConstBig).map
        (fun g => ((g.pots.getD 0 {}).EligblePlayerNums, (g.pots.getD 0 {}).WinningPlayerNums))
      = some ([0, 1, 2], [])) ∧
    (∀ n ∈ ([0, 1, 2] : List Nat), (gameC4.handScore rankConstBig n).2 = 9000) := by
  decide

/-- C9 counterexample: the claim says restore followed by omniscient view
reproduces every field of any view.  A view whose `Stage` is 9 does not fit
the 3-bit stage field of the packed flags byte: the round trip returns
stage 1. -/
theorem roundTrip_stage_truncated :
    (({} : Game).FillFromView viewC9bad).GenerateOmniView ≠ viewC9bad := by
  decide

/-- C10: the concession branch of `updateRoundInfo` reads the first element
of the in-seat list unconditionally, so for every state with zero `In`
players the function performs an out-of-range access (the `none` of the
embedding), whatever the ranking function. -/
theorem updateRoundInfo_no_players_in (g : Game) (rank : Ranker)
    (h : ∀ p ∈ g.players, p.In = false) : g.updateRoundInfo rank = none := by
  have hnil : g.inPlayerNums = [] := by
    unfold Game.inPlayerNums
    rw [List.filter_eq_nil_iff]
    intro i hi
    have hlen : i < g.players.length := List.mem_range.mp hi
    have hmem : g.players.getD i {} ∈ g.players := by
      rw [List.getD_eq_getElem g.players {} hlen]
      exact List.getElem_mem hlen
    simpa [List.getD] using h _ hmem
  simp [Game.updateRoundInfo, hnil]

/-- C10 witness: a concrete three-seat table with every seat folded. -/
theorem updateRoundInfo_no_players_in_witness :
    gameC10.updateRoundInfo rankConstOne = none :=
  updateRoundInfo_no_players_in gameC10 rankConstOne (by decide)

theorem listModify_id (w : Nat) (ps : List α) : listModify (fun a => a) w ps = ps := by
  induction ps generalizing w with
  | nil => cases w <;> rfl
  | cons a as ih =>
    cases w with
    | zero => rfl
    | succ n => simp [listModify, ih]

theorem foldl_credit_totalBet (w : Nat) (tbs : List Nat) (ps : List Player) :
    tbs.foldl (fun ps tb => listModify (fun p => { p with Stack := p.Stack + tb }) w ps) ps
      = listModify (fun p => { p with Stack := p.Stack + tbs.sum }) w ps := by
  induction tbs generalizing ps with
  | nil =>
    simp only [List.foldl_nil, List.sum_nil]
    have he : (fun p : Player => { p with Stack := p.Stack + 0 }) = fun p => p := by
      funext p
      simp
    rw [he, listModify_id]
  | cons t ts ih =>
    simp only [List.foldl_cons, List.sum_cons]
    rw [ih, listModify_listModify]
    congr 1
    funext p
    simp [Nat.add_assoc]

/-- C6: when exactly one player is `In`, `updateRoundInfo` concedes the
hand: the sole `In` seat's stack grows by the sum of every seat's
`TotalBet`, the packed status becomes (PreDeal, not betting), and the
function returns leaving the pot list, the action seat, and every other
seat untouched. -/
theorem updateRoundInfo_concession (g : Game) (rank : Ranker) (w : Nat)
    (h : g.inPlayerNums = [w]) :
    ∃ g', g.updateRoundInfo rank = some g' ∧
      (g'.players.getD w {}).Stack
        = (g.players.getD w {}).Stack + (g.players.map Player.TotalBet).sum ∧
      g'.getStage = PreDeal ∧ g'.getBetting = false ∧
      g'.pots = g.pots ∧ g'.actionNum = g.actionNum ∧
      ∀ i, i ≠ w → g'.players.getD i {} = g.players.getD i {} := by
  have hw : w < g.players.length := by
    have hmem : w ∈ g.inPlayerNums := by
      rw [h]
      exact List.mem_singleton_self w
    unfold Game.inPlayerNums at hmem
    exact List.mem_range.mp (List.mem_filter.mp hmem).1
  have hstep : g.updateRoundInfo rank = some
      { g.setStageAndBetting PreDeal false with
          players := listModify
            (fun p => { p with Stack := p.Stack + (g.players.map Player.TotalBet).sum })
            w g.players } := by
    simp only [Game.updateRoundInfo, h]
    norm_num
    rw [foldl_credit_totalBet]
    rfl
  refine ⟨_, hstep, ?_, ?_, ?_, ?_, ?_, ?_⟩
  · rw [getD_listModify_self _ _ _ _ hw]
  · exact getStage_setStageAndBetting g PreDeal false (by decide)
  · exact getBetting_setStageAndBetting g PreDeal false
  · rfl
  · rfl
  · intro i hi
    exact getD_listModify_ne _ _ _ _ _ hi

/-- C6 witness: `gameC6` has seat 1 as its only `In` seat; its stack of 2
collects all 28 wagered chips while the stale pot list and the action seat
stay as they were. -/
theorem updateRoundInfo_concession_witness :
    ∃ g', gameC6.updateRoundInfo rankConstOne = some g' ∧
      (g'.players.getD 1 {}).Stack
        = (gameC6.players.getD 1 {}).Stack + (gameC6.players.map Player.TotalBet).sum ∧
      g'.getStage = PreDeal ∧ g'.getBetting = false ∧
      g'.pots = gameC6.pots ∧ g'.actionNum = gameC6.actionNum ∧
      ∀ i, i ≠ 1 → g'.players.getD i {} = gameC6.players.getD i {} :=
  updateRoundInfo_concession gameC6 rankConstOne 1 (by decide)

theorem findReadyFrom_eq (ps : List Player) (hn : 0 < ps.length) :
    ∀ (fuel i m : Nat), i < ps.length → m < fuel →
      (ps.getD ((i + m) % ps.length) {}).Ready = true →
      (∀ j, j < m → (ps.getD ((i + j) % ps.length) {}).Ready = false) →
      findReadyFrom ps fuel i = (i + m) % ps.length := by
  intro fuel
  induction fuel with
  | zero =>
    intro i m _ hm
    omega
  | succ f ih =>
    intro i m hi hm hready hmin
    rw [findReadyFrom]
    by_cases hr : (ps.getD i {}).Ready = true
    · rw [if_pos hr]
      rcases Nat.eq_zero_or_pos m with h0 | hpos
      · subst h0
        rw [Nat.add_zero, Nat.mod_eq_of_lt hi]
      · have h0 := hmin 0 hpos
        rw [Nat.add_zero, Nat.mod_eq_of_lt hi] at h0
        rw [h0] at hr
        exact absurd hr (by simp)
    · rw [if_neg hr]
      rcases Nat.eq_zero_or_pos m with h0 | hpos
      · subst h0
        rw [Nat.add_zero, Nat.mod_eq_of_lt hi] at hready
        exact absurd hready hr
      · obtain ⟨m', rfl⟩ : ∃ m', m = m' + 1 := ⟨m - 1, by omega⟩
        rw [show (i + (m' + 1)) % ps.length = ((i + 1) % ps.length + m') % ps.length from by
          rw [Nat.mod_add_mod]; congr 1; omega]
        refine ih ((i + 1) % ps.length) m' (Nat.mod_lt _ hn) (by omega) ?_ ?_
        · rw [Nat.mod_add_mod, show i + 1 + m' = i + (m' + 1) from by omega]
          exact hready
        · intro j hj
          rw [Nat.mod_add_mod, show i + 1 + j = i + (j + 1) from by omega]
          exact hmin (j + 1) (by omega)

theorem findReadyFrom_nextReady (ps : List Player) (x : Nat)
    (hex : ∃ s, s < ps.length ∧ (ps.getD s {}).Ready = true) :
    NextReady ps x (findReadyFrom ps ps.length ((x + 1) % ps.length)) := by
  obtain ⟨s, hs, hready⟩ := hex
  have hn : 0 < ps.length := by omega
  have hi : (x + 1) % ps.length < ps.length := Nat.mod_lt _ hn
  have hPw : (ps.getD (((x + 1) % ps.length +
      (if (x + 1) % ps.length ≤ s then s - (x + 1) % ps.length
        else s + ps.length - (x + 1) % ps.length)) % ps.length) {}).Ready = true := by
    split
    · rw [show (x + 1) % ps.length + (s - (x + 1) % ps.length) = s from by omega,
        Nat.mod_eq_of_lt hs]
      exact hready
    · rw [show (x + 1) % ps.length + (s + ps.length - (x + 1) % ps.length) = s + ps.length
        from by omega, Nat.add_mod_right, Nat.mod_eq_of_lt hs]
      exact hready
  have hex2 : ∃ m, (ps.getD (((x + 1) % ps.length + m) % ps.length) {}).Ready = true := ⟨_, hPw⟩
  have hwlt : (if (x + 1) % ps.length ≤ s then s - (x + 1) % ps.length
      else s + ps.length - (x + 1) % ps.length) < ps.length := by
    split <;> omega
  have hm₀lt : Nat.find hex2 < ps.length := lt_of_le_of_lt (Nat.find_min' hex2 hPw) hwlt
  have heq : findReadyFrom ps ps.length ((x + 1) % ps.length)
      = ((x + 1) % ps.length + Nat.find hex2) % ps.length :=
    findReadyFrom_eq ps hn ps.length ((x + 1) % ps.length) (Nat.find hex2) hi hm₀lt
      (Nat.find_spec hex2)
      (fun j hj => by simpa using Nat.find_min hex2 hj)
  refine ⟨Nat.find hex2 + 1, by omega, by omega, ?_, ?_, ?_⟩
  · rw [heq, Nat.mod_add_mod]
    congr 1
    omega
  · rw [heq]
    exact Nat.find_spec hex2
  · intro j hj1 hjk
    obtain ⟨j', rfl⟩ : ∃ j', j = j' + 1 := ⟨j - 1, by omega⟩
    have hnot := Nat.find_min hex2 (show j' < Nat.find hex2 from by omega)
    have harr : (x + (j' + 1)) % ps.length = ((x + 1) % ps.length + j') % ps.length := by
      rw [Nat.mod_add_mod]
      congr 1
      omega
    rw [harr]
    simpa using hnot

theorem exists_ready_of_readyCount_pos (g : Game) (h : 0 < g.readyCount) :
    ∃ s, s < g.players.length ∧ (g.players.getD s {}).Ready = true := by
  unfold Game.readyCount at h
  obtain ⟨p, hp, hr⟩ := List.countP_pos_iff.mp h
  obtain ⟨n, hn, rfl⟩ := List.mem_iff_getElem.mp hp
  refine ⟨n, hn, ?_⟩
  rw [List.getD_eq_getElem _ _ hn]
  simpa using hr

/-- C8: blind rotation policy.  With fewer than two ready seats, small
blind, big blind and UTG all collapse onto the dealer and the
not-enough-players error is returned; with exactly two, the dealer is small
blind and UTG and the big blind is the next ready seat after the dealer
(wrapping, skipping non-ready seats); with three or more, small blind, big
blind and UTG are successive next-ready seats starting after the dealer,
and no error is returned. -/
theorem updateBlindNums_policy (g : Game) :
    (g.readyCount < 2 →
      (g.updateBlindNums).1.sbNum = g.dealerNum ∧ (g.updateBlindNums).1.bbNum = g.dealerNum ∧
      (g.updateBlindNums).1.utgNum = g.dealerNum ∧
      (g.updateBlindNums).2 = some GameErr.NotEnoughPlayers) ∧
    (g.readyCount = 2 →
      (g.updateBlindNums).1.sbNum = g.dealerNum ∧ (g.updateBlindNums).1.utgNum = g.dealerNum ∧
      NextReady g.players g.dealerNum (g.updateBlindNums).1.bbNum ∧
      (g.updateBlindNums).2 = none) ∧
    (3 ≤ g.readyCount →
      NextReady g.players g.dealerNum (g.updateBlindNums).1.sbNum ∧
      NextReady g.players (g.updateBlindNums).1.sbNum (g.updateBlindNums).1.bbNum ∧
      NextReady g.players (g.updateBlindNums).1.bbNum (g.updateBlindNums).1.utgNum ∧
      (g.updateBlindNums).2 = none) := by
  refine ⟨fun h2 => ?_, fun h2 => ?_, fun h3 => ?_⟩
  · unfold Game.updateBlindNums
    rw [if_pos h2]
    exact ⟨rfl, rfl, rfl, rfl⟩
  · have hex := exists_ready_of_readyCount_pos g (by omega)
    unfold Game.updateBlindNums
    rw [if_neg (by omega), if_pos (by simp [h2])]
    exact ⟨rfl, rfl, findReadyFrom_nextReady g.players g.dealerNum hex, rfl⟩
  · have hex := exists_ready_of_readyCount_pos g (by omega)
    unfold Game.updateBlindNums
    rw [if_neg (by omega), if_neg (by simp; omega)]
    exact ⟨findReadyFrom_nextReady g.players g.dealerNum hex,
      findReadyFrom_nextReady g.players _ hex,
      findReadyFrom_nextReady g.players _ hex, rfl⟩

/-- C8 witness: three ready seats with the dealer on seat 0 — the policy
instance for the three-or-more branch. -/
theorem updateBlindNums_policy_witness :
    NextReady gameC8.players gameC8.dealerNum (gameC8.updateBlindNums).1.sbNum ∧
    NextReady gameC8.players (gameC8.updateBlindNums).1.sbNum (gameC8.updateBlindNums).1.bbNum ∧
    NextReady gameC8.players (gameC8.updateBlindNums).1.bbNum (gameC8.updateBlindNums).1.utgNum ∧
    (gameC8.updateBlindNums).2 = none :=
  (updateBlindNums_policy gameC8).2.2 (by decide)

theorem getD_showSeats_notMem (g : Game) (L : List Nat) :
    ∀ (ps : List Player) (q : Nat) (d : Player), q ∉ L →
      (showSeats g L ps).getD q d = ps.getD q d := by
  induction L with
  | nil =>
    intro ps q d _
    rfl
  | cons n ns ih =>
    intro ps q d hq
    have hq1 : q ≠ n := fun e => hq (by simp [e])
    rw [showSeats, ih _ _ _ (fun hmem => hq (by simp [hmem]))]
    exact getD_listModify_ne _ _ _ _ _ hq1

theorem getD_hideExcept (pn : Nat) :
    ∀ (ps : List Player) (k q : Nat) (d : Player), q < ps.length → k + q ≠ pn →
      ((hideExcept pn k ps).getD q d).Cards = (0, 0) := by
  intro ps
  induction ps with
  | nil =>
    intro k q d h
    simp at h
  | cons p rest ih =>
    intro k q d hq hne
    cases q with
    | zero =>
      have hk : ¬k = pn := by omega
      simp [hideExcept, hk]
    | succ m =>
      simp only [hideExcept, List.getD_cons_succ]
      exact ih (k + 1) m d (by simpa using hq) (by omega)

/-- C2: for every seat `pn` and every game state, the per-player view has an
empty deck and a zeroed configuration seed, and every other seat `q` that is
not in the reveal set of §4.5 (all-in showdown transparency, the PreDeal
showdown-order walk from `calledNum`, recorded pot winners — the seats of
`Game.revealList`) renders with the empty hole cards `(0, 0)`. -/
theorem generatePlayerView_hides (g : Game) (rank : Ranker) (pn q : Nat)
    (hq : q < g.players.length) (hne : q ≠ pn) (hnr : q ∉ g.revealList rank) :
    ((g.GeneratePlayerView rank pn).Players.getD q {}).Cards = (0, 0) ∧
    (g.GeneratePlayerView rank pn).Deck = [] ∧
    (g.GeneratePlayerView rank pn).Config.Seed = 0 := by
  refine ⟨?_, rfl, rfl⟩
  show ((showSeats g (g.revealList rank) (hideExcept pn 0 g.players)).getD q {}).Cards = (0, 0)
  rw [getD_showSeats_notMem g _ _ _ _ hnr]
  exact getD_hideExcept pn g.players 0 q {} hq (by simpa using hne)

/-- C2 witness: on the flop with a live bet (`gameC2`) no reveal rule
applies, and seat 1 is hidden from seat 0 while the deck and seed are
blank. -/
theorem generatePlayerView_hides_witness :
    ((gameC2.GeneratePlayerView rankConstOne 0).Players.getD 1 {}).Cards = (0, 0) ∧
    (gameC2.GeneratePlayerView rankConstOne 0).Deck = [] ∧
    (gameC2.GeneratePlayerView rankConstOne 0).Config.Seed = 0 :=
  generatePlayerView_hides gameC2 rankConstOne 0 1 (by decide) (by decide) (by decide)

theorem copyPots_id (l : List Pot) : copyPots l = l := by
  simp [copyPots]


/-- C9 as amended: for every view whose `Stage` fits the 3-bit stage field
(< 8) and whose `ReadyCount` equals the number of ready seats in its player
list (the field is derived, not stored), restoring a game from the view and
generating the omniscient view again reproduces the view exactly; the
pseudo-random source is rebuilt from the seed rather than copied and holds
no further view-visible state. -/
theorem fillFromView_roundTrip (g : Game) (v : GameView) (hs : v.Stage < 8)
    (hrc : v.ReadyCount = v.Players.countP Player.Ready) :
    (g.FillFromView v).GenerateOmniView = v := by
  obtain ⟨dn, an, un, sn, bn, cn, cc, st, bt, cf, pl, dk, pt, mr, rc⟩ := v
  simp only [Game.GenerateOmniView, Game.copyToView, GameView.mk.injEq]
  refine ⟨rfl, rfl, rfl, rfl, rfl, rfl, rfl, ?_, ?_, rfl, rfl, rfl, ?_, rfl, ?_⟩
  · exact getStage_setStageAndBetting _ st bt hs
  · exact getBetting_setStageAndBetting _ st bt
  · show copyPots (copyPots pt) = pt
    rw [copyPots_id, copyPots_id]
  · exact hrc.symm

/-- C9 witness: a populated view with an in-range stage and a consistent
ready count round-trips exactly, whatever table it is loaded into. -/
theorem fillFromView_roundTrip_witness :
    (gameC9.FillFromView viewC9ok).GenerateOmniView = viewC9ok :=
  fillFromView_roundTrip gameC9 viewC9ok (by decide) (by decide)

theorem foldl_min_le_init (l : List Int) (a : Int) : l.foldl min a ≤ a := by
  induction l generalizing a with
  | nil => simp
  | cons x xs ih =>
    simp only [List.foldl_cons]
    exact le_trans (ih (min a x)) (min_le_left a x)

theorem foldl_min_le_mem (l : List Int) : ∀ (a x : Int), x ∈ l → l.foldl min a ≤ x := by
  induction l with
  | nil =>
    intro a x hx
    simp at hx
  | cons y ys ih =>
    intro a x hx
    simp only [List.foldl_cons]
    rcases List.mem_cons.mp hx with h | h
    · subst h
      exact le_trans (foldl_min_le_init ys _) (min_le_right a x)
    · exact ih _ _ h

theorem foldl_min_eq_or_mem (l : List Int) : ∀ a : Int, l.foldl min a = a ∨ l.foldl min a ∈ l := by
  induction l with
  | nil =>
    intro a
    left
    rfl
  | cons y ys ih =>
    intro a
    simp only [List.foldl_cons]
    rcases ih (min a y) with h | h
    · rcases le_total a y with hay | hya
      · simp only [min_eq_left hay] at h ⊢
        exact Or.inl h
      · simp only [min_eq_right hya] at h ⊢
        right
        simp [h]
    · right
      exact List.mem_cons_of_mem y h

theorem potWinnersFold_fst (score : Nat → List Card × Int) :
    ∀ (l : List Nat) (ws : Int) (wns : List Nat) (wh : List Card),
      (potWinnersFold score l (ws, wns, wh)).1 = (l.map fun n => (score n).2).foldl min ws := by
  intro l
  induction l with
  | nil =>
    intro ws wns wh
    rfl
  | cons n rest ih =>
    intro ws wns wh
    simp only [potWinnersFold, List.map_cons, List.foldl_cons]
    by_cases h1 : (score n).2 < ws
    · rw [if_pos h1, ih, min_eq_right (le_of_lt h1)]
    · rw [if_neg h1]
      by_cases h2 : (score n).2 = ws
      · rw [if_pos h2, ih, h2, min_self]
      · rw [if_neg h2, ih, min_eq_left (by omega)]

theorem potWinnersFold_winners (score : Nat → List Card × Int) :
    ∀ (l : List Nat) (ws : Int) (wns : List Nat) (wh : List Card),
      (potWinnersFold score l (ws, wns, wh)).2.1 =
        (if (l.map fun n => (score n).2).foldl min ws = ws then wns else []) ++
          l.filter (fun n => decide ((score n).2 = (l.map fun n => (score n).2).foldl min ws)) := by
  intro l
  induction l with
  | nil =>
    intro ws wns wh
    simp [potWinnersFold]
  | cons n rest ih =>
    intro ws wns wh
    simp only [potWinnersFold, List.map_cons, List.foldl_cons, List.filter_cons]
    by_cases h1 : (score n).2 < ws
    · rw [if_pos h1, ih]
      simp only [min_eq_right (le_of_lt h1)]
      have hMle : (rest.map fun k => (score k).2).foldl min ((score n).2) ≤ (score n).2 :=
        foldl_min_le_init _ _
      rw [if_neg (show ¬(rest.map fun k => (score k).2).foldl min ((score n).2) = ws from by omega)]
      by_cases h3 : (score n).2 = (rest.map fun k => (score k).2).foldl min ((score n).2)
      · rw [if_pos h3.symm, if_pos (decide_eq_true h3)]
        simp
      · rw [if_neg (fun e => h3 e.symm), if_neg (by simpa using h3)]
    · rw [if_neg h1]
      by_cases h2 : (score n).2 = ws
      · rw [if_pos h2, ih]
        simp only [h2, min_self]
        by_cases h4 : (rest.map fun k => (score k).2).foldl min ws = ws
        · rw [if_pos h4, if_pos h4, if_pos (decide_eq_true h4.symm)]
          simp
        · rw [if_neg h4, if_neg h4, if_neg (by simpa using fun e => h4 (Eq.symm e))]
      · rw [if_neg h2, ih]
        simp only [min_eq_left (show ws ≤ (score n).2 from by omega)]
        have hMle : (rest.map fun k => (score k).2).foldl min ws ≤ ws := foldl_min_le_init _ _
        rw [if_neg (show ¬(decide ((score n).2 =
          (rest.map fun k => (score k).2).foldl min ws) = true) from by simp; omega)]

theorem potShowdown_winners (score : Nat → List Card × Int) (elig : List Nat) :
    (potShowdown score elig).2.1 =
      elig.filter (fun n => decide ((score n).2 = (potShowdown score elig).1)) := by
  unfold potShowdown
  rw [potWinnersFold_winners, potWinnersFold_fst]
  simp

theorem getD_creditFold (c : Nat) (L : List Nat) :
    ∀ (ps : List Player) (i : Nat) (d : Player), L.Nodup → i < ps.length →
      ((creditFold c L ps).getD i d).Stack
        = (ps.getD i d).Stack + (if i ∈ L then c else 0) := by
  induction L with
  | nil =>
    intro ps i d _ _
    simp [creditFold]
  | cons n rest ih =>
    intro ps i d hnd hi
    obtain ⟨hnn, hrest⟩ := List.nodup_cons.mp hnd
    rw [show creditFold c (n :: rest) ps
      = creditFold c rest (listModify (fun p => { p with Stack := p.Stack + c }) n ps) from rfl]
    rw [ih _ _ _ hrest (by rw [listModify_length]; exact hi)]
    by_cases hin : i = n
    · subst hin
      rw [getD_listModify_self _ _ _ _ hi]
      have hnr : i ∉ rest := hnn
      simp [hnr]
    · rw [getD_listModify_ne _ _ _ _ _ hin]
      simp [List.mem_cons, hin]

/-- C4 as amended: provided every eligible seat scores strictly below the
8000 sentinel the winner loop starts from (true of the real evaluator), the
recorded winners of a pot are exactly the eligible seats whose score equals
the minimum score among the pot's eligible seats (`potShowdown` is the
loop run for every side pot and for the final pot), and the payout loop
credits each of the N joint winners with the integer quotient `Amt / N`
and nobody else — `Amt mod N` chips are awarded to no one. -/
theorem potWinners_argmin_and_payout (score : Nat → List Card × Int) (elig : List Nat)
    (ps : List Player) (amt i : Nat)
    (hnd : elig.Nodup) (hsc : ∀ n ∈ elig, (score n).2 < 8000) (hi : i < ps.length) :
    (∀ n, n ∈ (potShowdown score elig).2.1 ↔
      n ∈ elig ∧ (score n).2 = (potShowdown score elig).1) ∧
    (∀ n ∈ elig, (potShowdown score elig).1 ≤ (score n).2) ∧
    (elig ≠ [] → ∃ n, n ∈ elig ∧ (score n).2 = (potShowdown score elig).1) ∧
    ((payWinners ps (potShowdown score elig).2.1 amt).getD i {}).Stack
      = (ps.getD i {}).Stack +
        (if i ∈ (potShowdown score elig).2.1 then amt / ((potShowdown score elig).2.1).length
          else 0) ∧
    ((potShowdown score elig).2.1).length * (amt / ((potShowdown score elig).2.1).length)
        + amt % ((potShowdown score elig).2.1).length = amt := by
  have hfst : (potShowdown score elig).1 = (elig.map fun n => (score n).2).foldl min 8000 :=
    potWinnersFold_fst score elig 8000 [] []
  have hwin := potShowdown_winners score elig
  refine ⟨?_, ?_, ?_, ?_, Nat.div_add_mod amt _⟩
  · intro n
    rw [hwin]
    simp [List.mem_filter]
  · intro n hn
    rw [hfst]
    exact foldl_min_le_mem _ 8000 _ (List.mem_map_of_mem _ hn)
  · intro hne
    rcases foldl_min_eq_or_mem (elig.map fun n => (score n).2) 8000 with h | h
    · exfalso
      obtain ⟨n0, hn0⟩ := List.exists_mem_of_ne_nil elig hne
      have hlt := hsc n0 hn0
      have hle : (elig.map fun n => (score n).2).foldl min 8000 ≤ (score n0).2 :=
        foldl_min_le_mem _ 8000 _ (List.mem_map_of_mem (fun n => (score n).2) hn0)
      omega
    · obtain ⟨n1, hn1, hs1⟩ := List.mem_map.mp h
      exact ⟨n1, hn1, hs1.trans hfst.symm⟩
  · have hndW : ((potShowdown score elig).2.1).Nodup := by
      rw [hwin]
      exact hnd.filter _
    exact getD_creditFold _ _ ps i {} hndW hi

/-- C4 witness: two eligible seats tied at score 5 split a 7-chip pot; seat
0 is a winner and receives the quotient 3, one chip going to nobody. -/
theorem potWinners_argmin_and_payout_witness :
    ((payWinners playersC4w (potShowdown scoreFive [0, 1]).2.1 7).getD 0 {}).Stack
      = (playersC4w.getD 0 {}).Stack +
        (if 0 ∈ (potShowdown scoreFive [0, 1]).2.1
          then 7 / ((potShowdown scoreFive [0, 1]).2.1).length else 0) :=
  (potWinners_argmin_and_payout scoreFive [0, 1] playersC4w 7 0 (by decide) (by decide)
    (by decide)).2.2.2.1

end Riverboat
